import Mathlib

/-!
# hid-tmff2: force-feedback scaling, dispatch and bring-up

Shallow embedding of `hid-tmff2.c` and of the setup sequencer of
`tmtmx/hid-tmtmx.c`.

Machine integers are `Int`/`Nat` with explicit reduction:
* `unsigned int` values are reduced `% 2^32`;
* `int` values are kept in `[-2^31, 2^31)` by `wrap32`, the two's
  complement conversion (the kernel is built with `-fno-strict-overflow`,
  so signed arithmetic wraps).
-/

namespace TMFF

/-! ## Machine arithmetic -/

/-- Conversion of an integer to C `unsigned int` (reduction modulo 2^32). -/
def u32 (x : Int) : Int := x % 4294967296

/-- Conversion of an integer to C `int` (two's complement, 32 bits). -/
def wrap32 (x : Int) : Int := (x + 2147483648) % 4294967296 - 2147483648

/-- Range of a C `int` (the type of `logical_minimum`, `logical_maximum`). -/
def isS32 (x : Int) : Prop := -2147483648 ≤ x ∧ x ≤ 2147483647

instance (x : Int) : Decidable (isS32 x) := by
  unfold isS32; infer_instance

/-! ## Scaling library (`hid-tmff2.c`, lines 76-100) -/

/-- Embedding of `tmff_scale_u16(unsigned int in, int minimum, int maximum)`.
`maximum - minimum` is an `int` subtraction; the product with the unsigned
`in`, the division by `0xffff` and the addition of `minimum` are carried out
in `unsigned int`; the result is stored in the `int ret` and clamped. -/
def tmff_scale_u16 (inp : Nat) (minimum maximum : Int) : Int :=
  let ret : Int :=
    wrap32 (u32 (u32 ((inp : Int) % 4294967296 * u32 (wrap32 (maximum - minimum))) / 65535
      + u32 minimum))
  if ret < minimum then minimum
  else if ret > maximum then maximum
  else ret

/-- Embedding of `tmff_scale_s8(int in, int minimum, int maximum)`: every
operation is an `int` operation, the division truncates toward zero. -/
def tmff_scale_s8 (inp : Int) (minimum maximum : Int) : Int :=
  let ret : Int :=
    wrap32 (Int.tdiv (wrap32 (wrap32 (inp + 128) * wrap32 (maximum - minimum))) 255 + minimum)
  if ret < minimum then minimum
  else if ret > maximum then maximum
  else ret

/-! ## Kernel constants used by the driver -/

/-- `FF_RUMBLE` of `linux/input.h`. -/
def FF_RUMBLE : Nat := 0x50

/-- `FF_CONSTANT` of `linux/input.h`. -/
def FF_CONSTANT : Nat := 0x52

/-- `HID_UP_GENDESK` of `linux/hid.h`. -/
def HID_UP_GENDESK : Nat := 0x00010000

/-- `THRUSTMASTER_USAGE_FF`, defined as `(HID_UP_GENDESK | 0xbb)`. -/
def THRUSTMASTER_USAGE_FF : Nat := HID_UP_GENDESK ||| 0xbb

/-- `THRUSTMASTER_DEVICE_ID_2_IN_1_DT`. -/
def THRUSTMASTER_DEVICE_ID_2_IN_1_DT : Nat := 0xb320

/-- `ENOENT` of `errno-base.h`. -/
def ENOENT : Int := 2

/-- `ENOMEM` of `errno-base.h`. -/
def ENOMEM : Int := 12

/-- `ENODEV` of `errno-base.h`. -/
def ENODEV : Int := 19

/-- `ETIMEDOUT` of `errno.h`. -/
def ETIMEDOUT : Int := 110

/-! ## Data model -/

/-- The part of `struct hid_field` the driver reads and writes. `usage` holds
the `hid` code of each entry of the usage array, so `maxusage` is its length;
`value` is the field's value array (`report_count` entries in the kernel). -/
structure hid_field where
  usage : List Nat
  report_count : Nat
  logical_minimum : Int
  logical_maximum : Int
  value : List Int
deriving DecidableEq, Repr

/-- Number of usages of a field (`field->maxusage`). -/
def hid_field.maxusage (f : hid_field) : Nat := f.usage.length

/-- The part of `struct hid_report` the driver reads: its fields, in index
order (`maxfield` is the length of the list). -/
structure hid_report where
  field : List hid_field
deriving DecidableEq, Repr

/-- Number of fields of a report (`report->maxfield`). -/
def hid_report.maxfield (r : hid_report) : Nat := r.field.length

/-- The part of `struct ff_effect` read by `tmff_play`: the effect type and the
two views of the union `u` that the function reads (`u.ramp` for
`FF_CONSTANT`, `u.rumble` for `FF_RUMBLE`). -/
structure ff_effect where
  type : Nat
  ramp_start_level : Int
  ramp_end_level : Int
  rumble_strong_magnitude : Nat
  rumble_weak_magnitude : Nat
deriving DecidableEq, Repr

/-- State touched by `tmff_play`: the bound field `tmff->ff_field` and the log
of `hid_hw_request(hid, tmff->report, HID_REQ_SET_REPORT)` calls, each entry
recording the values of the bound field at the time of the request. -/
structure play_state where
  ff_field : hid_field
  requests : List (List Int)
deriving DecidableEq, Repr

/-- Assignment `ff_field->value[i] = v`. -/
def hid_field.set_value (f : hid_field) (i : Nat) (v : Int) : hid_field :=
  { f with value := f.value.set i v }

/-- Call `hid_hw_request(hid, tmff->report, HID_REQ_SET_REPORT)`: one report
transmission, logged with the current values of the bound field. -/
def hid_hw_request (st : play_state) : play_state :=
  { st with requests := st.requests ++ [st.ff_field.value] }

/-! ## Effect dispatcher (`tmff_play`, lines 102-149) -/

/-- Embedding of `tmff_play`. `product` is `hid->product`. The result is the
returned status and the state after the call. -/
def tmff_play (product : Nat) (st : play_state) (effect : ff_effect) : Int × play_state :=
  if effect.type = FF_CONSTANT then
    let x := tmff_scale_s8 effect.ramp_start_level
      st.ff_field.logical_minimum st.ff_field.logical_maximum
    let y := tmff_scale_s8 effect.ramp_end_level
      st.ff_field.logical_minimum st.ff_field.logical_maximum
    let st1 := { st with ff_field := (st.ff_field.set_value 0 x).set_value 1 y }
    (0, hid_hw_request st1)
  else if effect.type = FF_RUMBLE then
    let left := tmff_scale_u16 effect.rumble_weak_magnitude
      st.ff_field.logical_minimum st.ff_field.logical_maximum
    let right := tmff_scale_u16 effect.rumble_strong_magnitude
      st.ff_field.logical_minimum st.ff_field.logical_maximum
    let swapped : Int × Int :=
      if product = THRUSTMASTER_DEVICE_ID_2_IN_1_DT then (right, left) else (left, right)
    let st1 := { st with ff_field := (st.ff_field.set_value 0 swapped.1).set_value 1 swapped.2 }
    (0, hid_hw_request st1)
  else
    (0, st)

/-! ## Transport adapter (`tmff_ctrl`, `usb_start_wait_urb`, lines 151-190) -/

/-- Calls made on the urb by `usb_start_wait_urb`, in program order. -/
inductive urb_call where
  | usb_submit_urb
  | usb_kill_urb
  | usb_free_urb
deriving DecidableEq, Repr

/-- The fields of `struct api_context`: `done` tells whether the completion has
been signalled, `status` is the `int status` member. -/
structure api_context where
  done : Bool
  status : Int
deriving DecidableEq, Repr

/-- Embedding of the completion handler `tmff_ctrl`: it only logs a warning
when `urb->status` is non-zero. It receives the context and returns it as it
found it (neither `status` nor `done` is written); the second component tells
whether the warning was logged. -/
def tmff_ctrl (urb_status : Int) (ctx : api_context) : api_context × Bool :=
  (ctx, urb_status ≠ 0)

/-- What the kernel hands back to `usb_start_wait_urb`: the return value of
`usb_submit_urb`, the context as it stands when the wait is over (`done` is
the outcome of `wait_for_completion_timeout`, `status` the value then read
from `ctx.status`), and `urb->actual_length` at that time. -/
structure urb_env where
  submit_ret : Int
  ctx : api_context
  actual_length : Int
deriving DecidableEq, Repr

/-- Result of `usb_start_wait_urb`: the returned status, the value stored
through `actual_length` and the calls made on the urb. -/
structure wait_result where
  retval : Int
  actual_length : Int
  calls : List urb_call
deriving DecidableEq, Repr

/-- Embedding of `usb_start_wait_urb` (called with a non-null
`actual_length`). On submission failure `urb->actual_length` still has the
value 0 stored before the submission. -/
def usb_start_wait_urb (env : urb_env) : wait_result :=
  if env.submit_ret ≠ 0 then
    { retval := env.submit_ret, actual_length := 0,
      calls := [urb_call.usb_submit_urb, urb_call.usb_free_urb] }
  else if !env.ctx.done then
    { retval := if env.ctx.status = -ENOENT then -ETIMEDOUT else env.ctx.status,
      actual_length := env.actual_length,
      calls := [urb_call.usb_submit_urb, urb_call.usb_kill_urb, urb_call.usb_free_urb] }
  else
    { retval := env.ctx.status, actual_length := env.actual_length,
      calls := [urb_call.usb_submit_urb, urb_call.usb_free_urb] }

/-! ## Setup sequencer (`tmff_clear_init` lines 209-223, `tmx_interrupts`) -/

/-- Table `setup_arr` of `hid-tmff2.c`. -/
def setup_arr : List (List Nat) :=
  [ [0x42, 0x01, 0x00, 0x00, 0x00, 0x00, 0x00, 0x00, 0x00],
    [0x0a, 0x04, 0x90, 0x03, 0x00, 0x00, 0x00, 0x00],
    [0x0a, 0x04, 0x00, 0x0c, 0x00, 0x00, 0x00, 0x00],
    [0x0a, 0x04, 0x12, 0x10, 0x00, 0x00, 0x00, 0x00],
    [0x0a, 0x04, 0x00, 0x06, 0x00, 0x00, 0x00, 0x00] ]

/-- Table `setup_arr_sizes` of `hid-tmff2.c` (`ARRAY_SIZE` of each packet). -/
def setup_arr_sizes : List Nat := [9, 8, 8, 8, 8]

/-- A 64-byte array initialised with the given leading bytes, the rest zero
(`static const u8 setup_n[64] = { ... }`). -/
def bytes64 (lead : List Nat) : List Nat := lead ++ List.replicate (64 - lead.length) 0

/-- Table `setup_arr` of `tmtmx/hid-tmtmx.c`. -/
def tmx_setup_arr : List (List Nat) :=
  [ bytes64 [0x42, 0x01],
    bytes64 [0x0a, 0x04, 0x90, 0x03],
    bytes64 [0x0a, 0x04, 0x00, 0x0c],
    bytes64 [0x0a, 0x04, 0x12, 0x10],
    bytes64 [0x0a, 0x04, 0x00, 0x06],
    bytes64 [0x0a, 0x04, 0x00, 0x0e],
    bytes64 [0x0a, 0x04, 0x00, 0x0e, 0x01] ]

/-- Table `setup_arr_sizes` of `tmtmx/hid-tmtmx.c`. -/
def tmx_setup_arr_sizes : List Nat := [64, 64, 64, 64, 64, 64, 64]

/-- Copy `memcpy(dst, src, n)` on byte lists: the first `n` bytes of `dst` are
replaced by the first `n` bytes of `src`. -/
def memcpy (dst src : List Nat) (n : Nat) : List Nat := src.take n ++ dst.drop n

/-- State of the packet loop: the shared `send_buf`, the payloads handed to
`usb_interrupt_msg` so far (oldest first) and the status variable (`err` in
`tmff_clear_init`, `ret` in `tmx_interrupts`). -/
structure seq_state where
  send_buf : List Nat
  sent : List (List Nat)
  ret : Int
deriving DecidableEq, Repr

/-- The loop `for (i = 0; i < ARRAY_SIZE(setup_arr); ++i)` shared by
`tmff_clear_init` and `tmx_interrupts`, from index `i` on; `table` lists the
remaining `(setup_arr[i], setup_arr_sizes[i])` pairs and `outcome j` is the
status returned by the `usb_interrupt_msg` call of index `j`. The boolean tells
whether the loop was left through the `goto`. -/
def setup_loop (outcome : Nat → Int) : List (List Nat × Nat) → Nat → seq_state → Bool × seq_state
  | [], _, st => (false, st)
  | (pkt, size) :: rest, i, st =>
    let buf := memcpy st.send_buf pkt size
    let st1 : seq_state :=
      { send_buf := buf, sent := st.sent ++ [buf.take size], ret := outcome i }
    if outcome i ≠ 0 then (true, st1)
    else setup_loop outcome rest (i + 1) st1

/-- Embedding of `tmx_interrupts`. `alloc_ok` tells whether `kmalloc`
returned a buffer, `buf0` is the buffer's initial content and `ret0` the
indeterminate initial value of `ret`. The result is the returned status and
the payloads sent. -/
def tmx_interrupts (alloc_ok : Bool) (outcome : Nat → Int) (buf0 : List Nat) (ret0 : Int) :
    Int × List (List Nat) :=
  if !alloc_ok then (-ENOMEM, [])
  else
    let r := setup_loop outcome (tmx_setup_arr.zip tmx_setup_arr_sizes) 0
      { send_buf := buf0, sent := [], ret := ret0 }
    (r.2.ret, r.2.sent)

/-- Result of `tmff_clear_init`: returned status, payloads sent on the
interrupt endpoint, and the calls made on the handshake urb (empty when the
handshake was not reached). -/
structure clear_init_result where
  err : Int
  sent : List (List Nat)
  urb_calls : List urb_call
deriving DecidableEq, Repr

/-- Embedding of `tmff_clear_init`: the packet loop, then the control
handshake through `usb_start_wait_urb`; both failure paths and the success
path end at `error:` and return `err`. -/
def tmff_clear_init (outcome : Nat → Int) (buf0 : List Nat) (err0 : Int) (env : urb_env) :
    clear_init_result :=
  let r := setup_loop outcome (setup_arr.zip setup_arr_sizes) 0
    { send_buf := buf0, sent := [], ret := err0 }
  if r.1 then
    { err := r.2.ret, sent := r.2.sent, urb_calls := [] }
  else
    let w := usb_start_wait_urb env
    { err := w.retval, sent := r.2.sent, urb_calls := w.calls }

/-! ## Device entry / field binding (`tmff_init`, lines 262-349) -/

/-- The members of `struct tmff_device`. Pointers are represented by positions:
`report` is the index of the report in the output report list, `ff_field` the
pair (report index, field index). `none` is the null pointer left by
`kzalloc`. -/
structure tmff_device where
  report : Option Nat
  ff_field : Option (Nat × Nat)
deriving DecidableEq, Repr

/-- State of the discovery loops: the device entry being filled and the bits
set so far in `input_dev->ffbit`. -/
structure init_state where
  tmff : tmff_device
  ffbit : List Nat
deriving DecidableEq, Repr

/-- The loop `for (i = 0; ff_bits[i] >= 0; i++) set_bit(ff_bits[i], ffbit)`;
`ff_bits` is the array up to and including its negative terminator. -/
def set_ff_bits : List Int → List Nat → List Nat
  | [], acc => acc
  | b :: rest, acc => if b ≥ 0 then set_ff_bits rest (acc.insert b.toNat) else acc

/-- Body of the inner loop of `tmff_init` for the field at index `fieldnum` of
the report at index `ri`. Every `continue` leaves the state as it is. -/
def tmff_init_field (ff_bits : List Int) (ri fieldnum : Nat) (field : hid_field)
    (st : init_state) : init_state :=
  if field.maxusage ≤ 0 then st
  else
    match field.usage with
    | [] => st
    | hid :: _ =>
      if hid = 0xff00000a ∨ hid = THRUSTMASTER_USAGE_FF then
        if field.report_count < 2 then st
        else if field.logical_maximum = field.logical_minimum then st
        else if st.tmff.report.isSome ∧ st.tmff.report ≠ some ri then st
        else if st.tmff.ff_field.isSome ∧ st.tmff.ff_field ≠ some (ri, fieldnum) then st
        else
          { tmff := { report := some ri, ff_field := some (ri, fieldnum) },
            ffbit := set_ff_bits ff_bits st.ffbit }
      else st

/-- The loop `for (fieldnum = 0; fieldnum < report->maxfield; ++fieldnum)`,
from index `fieldnum` on. -/
def tmff_init_fields (ff_bits : List Int) (ri : Nat) :
    List hid_field → Nat → init_state → init_state
  | [], _, st => st
  | field :: rest, fieldnum, st =>
    tmff_init_fields ff_bits ri rest (fieldnum + 1) (tmff_init_field ff_bits ri fieldnum field st)

/-- The loop `list_for_each_entry(report, report_list, list)`, from the report
of index `ri` on. -/
def tmff_init_reports (ff_bits : List Int) : List hid_report → Nat → init_state → init_state
  | [], _, st => st
  | report :: rest, ri, st =>
    tmff_init_reports ff_bits rest (ri + 1) (tmff_init_fields ff_bits ri report.field 0 st)

/-- The discovery part of `tmff_init`: both loops run from a zeroed
`struct tmff_device`; `ffbit0` is the initial content of `input_dev->ffbit`. -/
def tmff_discover (reports : List hid_report) (ff_bits : List Int) (ffbit0 : List Nat) :
    init_state :=
  tmff_init_reports ff_bits reports 0 { tmff := { report := none, ff_field := none }, ffbit := ffbit0 }

/-- Environment of `tmff_init`: whether `kzalloc` succeeds, the status returned
by `input_ff_create_memless`, and for the product 0xb65d the environment of
`tmff_clear_init`. -/
structure init_env where
  kzalloc_ok : Bool
  ff_create_memless : Int
  outcome : Nat → Int
  buf0 : List Nat
  err0 : Int
  urb : urb_env

/-- Embedding of `tmff_init` (with `CONFIG_THRUSTMASTER_FF`): the returned
status and the device entry at the time of return (`none` when no entry was
allocated). -/
def tmff_init (product : Nat) (reports : List hid_report) (ff_bits : List Int)
    (ffbit0 : List Nat) (env : init_env) : Int × Option tmff_device :=
  if product = 0xb65d then
    ((tmff_clear_init env.outcome env.buf0 env.err0 env.urb).err, none)
  else if !env.kzalloc_ok then (-ENOMEM, none)
  else
    let st := tmff_discover reports ff_bits ffbit0
    if st.tmff.report.isNone then (-ENODEV, some st.tmff)
    else if env.ff_create_memless ≠ 0 then (env.ff_create_memless, some st.tmff)
    else (0, some st.tmff)

/-- Embedding of `tm_probe`: `parse_ret` and `hw_start_ret` are the statuses of
`hid_parse` and `hid_hw_start`; the value of `tmff_init` is discarded. -/
def tm_probe (parse_ret hw_start_ret : Int) (product : Nat) (reports : List hid_report)
    (ff_bits : List Int) (ffbit0 : List Nat) (env : init_env) : Int :=
  if parse_ret ≠ 0 then parse_ret
  else if hw_start_ret ≠ 0 then hw_start_ret
  else
    let _ := tmff_init product reports ff_bits ffbit0 env
    0

/-! ### Statements of the field binding contract, in the words of the specification -/

/-- A field qualifies for binding: it has a recognised FF usage, at least two
values and `logical_maximum ≠ logical_minimum`. -/
def qualifies (f : hid_field) : Bool :=
  (f.usage.head? = some 0xff00000a || f.usage.head? = some THRUSTMASTER_USAGE_FF)
    && decide (2 ≤ f.report_count)
    && decide (f.logical_maximum ≠ f.logical_minimum)

/-- First qualifying field in scan order (reports in list order, fields by
index), as a pair (report index, field index); `ri` is the index of the head
of the list. -/
def first_qualifying_from : List hid_report → Nat → Option (Nat × Nat)
  | [], _ => none
  | r :: rest, ri =>
    match r.field.findIdx? qualifies with
    | some fi => some (ri, fi)
    | none => first_qualifying_from rest (ri + 1)

/-- First qualifying field of a report list. -/
def first_qualifying (reports : List hid_report) : Option (Nat × Nat) :=
  first_qualifying_from reports 0

/-- The field at a given position of a report list. -/
def field_at (reports : List hid_report) (pos : Nat × Nat) : Option hid_field :=
  match reports[pos.1]? with
  | none => none
  | some r => r.field[pos.2]?

/-! ### Statement of the sequencer contract, in the words of the specification -/

/-- Index of the first transfer returning a non-zero status among the `n`
transfers of indices `i`, `i + 1`, ...; `none` when all of them succeed. -/
def first_failure (outcome : Nat → Int) : Nat → Nat → Option Nat
  | _, 0 => none
  | i, n + 1 => if outcome i ≠ 0 then some i else first_failure outcome (i + 1) n

/-- A run over the table `arr` is fail-fast and order-preserving: when the
transfer of index `k` is the first to fail, the payloads sent are
`arr[0..k]` in table order and the status is that transfer's status; when no
transfer fails, the whole table is sent in order and the status is 0. -/
def fail_fast_run (arr : List (List Nat)) (outcome : Nat → Int)
    (sent : List (List Nat)) (status : Int) : Prop :=
  match first_failure outcome 0 arr.length with
  | some k => sent = arr.take (k + 1) ∧ status = outcome k
  | none => sent = arr ∧ status = 0

/-! ## Range setter of the TMX wheel (`tmx_set_range`, `tmtmx/hid-tmtmx.c` lines 165-180) -/

/-- Result of one call of `tmx_set_range`: the returned status, the value
passed on to `t300rs_set_range`, and the values reported through `hid_info`
(oldest first). -/
structure set_range_result where
  ret : Int
  forwarded : Nat
  notices : List Nat
deriving DecidableEq, Repr

/-- Embedding of `tmx_set_range(void *data, uint16_t value)`. The callee
`t300rs_set_range`, which is not part of the files at hand, is a parameter:
it maps the forwarded value to the status it returns. The argument is
converted to `uint16_t` on entry. -/
def tmx_set_range (t300rs_set_range : Nat → Int) (value : Nat) : set_range_result :=
  let v0 := value % 65536
  let low : Nat × List Nat := if v0 < 140 then (140, [v0]) else (v0, [])
  let high : Nat × List Nat :=
    if low.1 > 900 then (900, low.2 ++ [low.1]) else (low.1, low.2)
  { ret := t300rs_set_range high.1, forwarded := high.1, notices := high.2 }

/-! ## Sample inputs -/

/-- A bound field with logical range [0, 255] and two values. -/
def sample_field : hid_field :=
  { usage := [THRUSTMASTER_USAGE_FF], report_count := 2,
    logical_minimum := 0, logical_maximum := 255, value := [0, 0] }

/-- A play state on `sample_field` with no request sent yet. -/
def sample_state : play_state := { ff_field := sample_field, requests := [] }

/-- A RUMBLE effect with weak = 0x4000 and strong = 0x8000. -/
def sample_rumble : ff_effect :=
  { type := FF_RUMBLE, ramp_start_level := 0, ramp_end_level := 0,
    rumble_strong_magnitude := 0x8000, rumble_weak_magnitude := 0x4000 }

/-- An effect of kind `FF_PERIODIC` (0x51), which `tmff_play` does not handle. -/
def sample_periodic : ff_effect :=
  { type := 0x51, ramp_start_level := 5, ramp_end_level := 7,
    rumble_strong_magnitude := 9, rumble_weak_magnitude := 11 }

/-- A candidate field whose logical bounds coincide. -/
def degenerate_field : hid_field :=
  { usage := [THRUSTMASTER_USAGE_FF], report_count := 2,
    logical_minimum := 0, logical_maximum := 0, value := [0, 0] }

/-- A candidate field whose logical maximum lies below its logical minimum. -/
def inverted_field : hid_field :=
  { usage := [0xff00000a], report_count := 2,
    logical_minimum := 5, logical_maximum := 0, value := [0, 0] }

/-- Two output reports: the first holds a degenerate candidate followed by a
valid one, the second holds another valid candidate. -/
def sample_reports : List hid_report :=
  [ { field := [degenerate_field, sample_field] }, { field := [sample_field] } ]

/-- An environment in which every allocation and every transfer succeeds and
the handshake wait ends with the context status `-ENOENT`, not completed. -/
def sample_env : init_env :=
  { kzalloc_ok := true, ff_create_memless := 0, outcome := fun _ => 0,
    buf0 := List.replicate 256 0, err0 := 0,
    urb := { submit_ret := 0, ctx := { done := false, status := -2 }, actual_length := 0 } }

/-- Three one-byte packets P0, P1, P2. -/
def sample_packets : List (List Nat) := [[0xa0], [0xa1], [0xa2]]

/-- Transfer outcomes in which only the transfer of index 1 fails, with
status -5. -/
def sample_outcome : Nat → Int := fun i => if i = 1 then -5 else 0

/-- An environment in which every setup transfer succeeds and the submission
of the handshake urb fails with `-ENOMEM`. -/
def handshake_fail_env : init_env :=
  { kzalloc_ok := true, ff_create_memless := 0, outcome := fun _ => 0,
    buf0 := List.replicate 256 0, err0 := 0,
    urb := { submit_ret := -12, ctx := { done := false, status := 0 }, actual_length := 0 } }

/-- The context of `usb_start_wait_urb` when the wait is over, for an urb whose
completion handler is `tmff_ctrl` (the handshake urb of `tmff_clear_init`):
`init_completion` leaves `done` false, `status` is never assigned and holds the
indeterminate content `stack_status` of the stack slot, and every completion
of the urb (one entry of `completions` per call of the handler, with the
`urb->status` it sees) runs `tmff_ctrl`. -/
def ctx_after_wait (stack_status : Int) (completions : List Int) : api_context :=
  completions.foldl (fun ctx urb_status => (tmff_ctrl urb_status ctx).1)
    { done := false, status := stack_status }

/-- The environment of `usb_start_wait_urb` for the handshake urb: the
submission succeeds and the context is the one `tmff_ctrl` leaves behind. -/
def handshake_urb_env (stack_status : Int) (completions : List Int) (actual_length : Int) :
    urb_env :=
  { submit_ret := 0, ctx := ctx_after_wait stack_status completions,
    actual_length := actual_length }

/-- A range setter that accepts every value and reports success. -/
def sample_range_setter : Nat → Int := fun _ => 0

/-! ### Supporting facts on the scaling functions -/

theorem wrap32_of_isS32 (x : Int) (h : isS32 x) : wrap32 x = x := by
  unfold isS32 at h
  unfold wrap32
  omega

theorem wrap32_u32 (x : Int) (h : isS32 x) : wrap32 (u32 x) = x := by
  unfold isS32 at h
  unfold wrap32 u32
  omega

/-- The clamp keeps the result inside the bounds whenever `minimum ≤ maximum`,
whatever the intermediate arithmetic produced. -/
theorem tmff_scale_u16_between (inp : Nat) (minimum maximum : Int) (h : minimum ≤ maximum) :
    minimum ≤ tmff_scale_u16 inp minimum maximum ∧
      tmff_scale_u16 inp minimum maximum ≤ maximum := by
  unfold tmff_scale_u16
  simp only []
  split_ifs <;> omega

/-- Same for the signed-8 scaling. -/
theorem tmff_scale_s8_between (inp minimum maximum : Int) (h : minimum ≤ maximum) :
    minimum ≤ tmff_scale_s8 inp minimum maximum ∧
      tmff_scale_s8 inp minimum maximum ≤ maximum := by
  unfold tmff_scale_s8
  simp only []
  split_ifs <;> omega

/-- The input 0 is sent to `minimum` on every pair of 32-bit bounds. -/
theorem tmff_scale_u16_zero (minimum maximum : Int) (hmin : isS32 minimum)
    (hle : minimum ≤ maximum) : tmff_scale_u16 0 minimum maximum = minimum := by
  unfold isS32 at hmin
  unfold tmff_scale_u16
  simp only [Nat.cast_zero, Int.zero_emod, zero_mul]
  unfold wrap32 u32
  split_ifs <;> omega

/-- The input -0x80 is sent to `minimum` on every pair of 32-bit bounds. -/
theorem tmff_scale_s8_bottom (minimum maximum : Int) (hmin : isS32 minimum)
    (hle : minimum ≤ maximum) : tmff_scale_s8 (-128) minimum maximum = minimum := by
  unfold isS32 at hmin
  have h0 : wrap32 (-128 + 128) = 0 := by decide
  unfold tmff_scale_s8
  simp only [h0, zero_mul]
  have h1 : wrap32 0 = 0 := by decide
  simp only [h1, Int.zero_tdiv, zero_add]
  unfold wrap32
  split_ifs <;> omega

/-- Closed form of `tmff_scale_u16` when the product does not leave 32 bits:
`maximum - minimum ≤ 0x10001`. -/
theorem tmff_scale_u16_exact (inp : Nat) (minimum maximum : Int)
    (hin : inp ≤ 65535) (hmin : isS32 minimum) (hmax : isS32 maximum)
    (hle : minimum ≤ maximum) (hnarrow : maximum - minimum ≤ 65537) :
    tmff_scale_u16 inp minimum maximum = (inp : Int) * (maximum - minimum) / 65535 + minimum := by
  unfold isS32 at hmin hmax
  have hd0 : 0 ≤ maximum - minimum := by omega
  have hi0 : (0 : Int) ≤ (inp : Int) := Int.ofNat_nonneg inp
  have hi1 : (inp : Int) ≤ 65535 := by exact_mod_cast hin
  have hp0 : 0 ≤ (inp : Int) * (maximum - minimum) := mul_nonneg hi0 hd0
  have hp1 : (inp : Int) * (maximum - minimum) ≤ 65535 * (maximum - minimum) :=
    mul_le_mul_of_nonneg_right hi1 hd0
  have hw : wrap32 (maximum - minimum) = maximum - minimum := by
    unfold wrap32; omega
  have hu : u32 (maximum - minimum) = maximum - minimum := by
    unfold u32; omega
  have hi : (inp : Int) % 4294967296 = inp := by omega
  unfold tmff_scale_u16
  simp only [hw, hu, hi]
  generalize (inp : Int) * (maximum - minimum) = p at hp0 hp1 ⊢
  unfold wrap32 u32
  split_ifs <;> omega

/-- Closed form of `tmff_scale_s8` when the product does not leave 31 bits:
`maximum - minimum ≤ 8421504`. -/
theorem tmff_scale_s8_exact (inp minimum maximum : Int)
    (hin0 : -128 ≤ inp) (hin1 : inp ≤ 127) (hmin : isS32 minimum) (hmax : isS32 maximum)
    (hle : minimum ≤ maximum) (hnarrow : maximum - minimum ≤ 8421504) :
    tmff_scale_s8 inp minimum maximum = (inp + 128) * (maximum - minimum) / 255 + minimum := by
  unfold isS32 at hmin hmax
  have hd0 : 0 ≤ maximum - minimum := by omega
  have hi0 : (0 : Int) ≤ inp + 128 := by omega
  have hi1 : inp + 128 ≤ 255 := by omega
  have hp0 : 0 ≤ (inp + 128) * (maximum - minimum) := mul_nonneg hi0 hd0
  have hp1 : (inp + 128) * (maximum - minimum) ≤ 255 * (maximum - minimum) :=
    mul_le_mul_of_nonneg_right hi1 hd0
  have hw : wrap32 (maximum - minimum) = maximum - minimum := by
    unfold wrap32; omega
  have hi : wrap32 (inp + 128) = inp + 128 := by
    unfold wrap32; omega
  unfold tmff_scale_s8
  simp only [hw, hi]
  generalize (inp + 128) * (maximum - minimum) = p at hp0 hp1 ⊢
  have hwp : wrap32 p = p := by unfold wrap32; omega
  have ht : Int.tdiv p 255 = p / 255 := Int.tdiv_eq_ediv hp0 (by decide)
  simp only [hwp, ht]
  unfold wrap32
  split_ifs <;> omega

/-- For a range no wider than 0x10001 the unsigned-16 scaling sends 0 to
`minimum` and 0xffff to `maximum`. -/
theorem tmff_scale_u16_ends_of_narrow (minimum maximum : Int)
    (hmin : isS32 minimum) (hmax : isS32 maximum)
    (hle : minimum ≤ maximum) (hnarrow : maximum - minimum ≤ 65537) :
    tmff_scale_u16 0 minimum maximum = minimum ∧
      tmff_scale_u16 65535 minimum maximum = maximum := by
  constructor
  · rw [tmff_scale_u16_exact 0 minimum maximum (by decide) hmin hmax hle hnarrow]
    simp
  · rw [tmff_scale_u16_exact 65535 minimum maximum (by decide) hmin hmax hle hnarrow]
    have h : ((65535 : Nat) : Int) * (maximum - minimum) / 65535 = maximum - minimum := by
      have : ((65535 : Nat) : Int) = 65535 := by norm_num
      rw [this]
      exact Int.mul_ediv_cancel_left _ (by decide)
    rw [h]; ring

/-- For a range no wider than 0x10001 the unsigned-16 scaling is monotone. -/
theorem tmff_scale_u16_mono_of_narrow (v1 v2 : Nat) (minimum maximum : Int)
    (h12 : v1 ≤ v2) (h2 : v2 ≤ 65535) (hmin : isS32 minimum) (hmax : isS32 maximum)
    (hle : minimum ≤ maximum) (hnarrow : maximum - minimum ≤ 65537) :
    tmff_scale_u16 v1 minimum maximum ≤ tmff_scale_u16 v2 minimum maximum := by
  rw [tmff_scale_u16_exact v1 minimum maximum (le_trans h12 h2) hmin hmax hle hnarrow,
    tmff_scale_u16_exact v2 minimum maximum h2 hmin hmax hle hnarrow]
  have hd0 : 0 ≤ maximum - minimum := by omega
  have hv : (v1 : Int) ≤ (v2 : Int) := by exact_mod_cast h12
  have hp : (v1 : Int) * (maximum - minimum) ≤ (v2 : Int) * (maximum - minimum) :=
    mul_le_mul_of_nonneg_right hv hd0
  have hq := Int.ediv_le_ediv (by decide : (0 : Int) < 65535) hp
  omega

/-- For a range no wider than 8421504 the signed-8 scaling sends -0x80 to
`minimum` and 0x7f to `maximum`. -/
theorem tmff_scale_s8_ends_of_narrow (minimum maximum : Int)
    (hmin : isS32 minimum) (hmax : isS32 maximum)
    (hle : minimum ≤ maximum) (hnarrow : maximum - minimum ≤ 8421504) :
    tmff_scale_s8 (-128) minimum maximum = minimum ∧
      tmff_scale_s8 127 minimum maximum = maximum := by
  constructor
  · rw [tmff_scale_s8_exact (-128) minimum maximum (by decide) (by decide) hmin hmax hle hnarrow]
    simp
  · rw [tmff_scale_s8_exact 127 minimum maximum (by decide) (by decide) hmin hmax hle hnarrow]
    have h : ((127 : Int) + 128) * (maximum - minimum) / 255 = maximum - minimum := by
      have : ((127 : Int) + 128) = 255 := by norm_num
      rw [this]
      exact Int.mul_ediv_cancel_left _ (by decide)
    rw [h]; ring

/-! ## Scaling library: the contracts on wide ranges -/

/-- C1: evaluation of `tmff_scale_u16` at full scale on the 32-bit bounds
`minimum = 0 < maximum = 0x10002`. The product `0xffff * 0x10002` leaves 32
bits, the quotient is 0 and the function returns `minimum`, not `maximum`. -/
theorem tmff_scale_u16_full_scale_wide :
    isS32 0 ∧ isS32 65538 ∧ (0 : Int) < 65538 ∧
      tmff_scale_u16 65535 0 65538 = 0 ∧ tmff_scale_u16 65535 0 65538 ≠ 65538 := by
  decide

/-- C2: evaluation of `tmff_scale_u16` at two consecutive inputs on the bounds
`minimum = 0 < maximum = 0x10002`: the larger input 0xffff yields 0 while the
smaller input 0xfffe yields 0x10000, so the function is not monotone there. -/
theorem tmff_scale_u16_wide_not_monotone :
    tmff_scale_u16 65534 0 65538 = 65536 ∧ tmff_scale_u16 65535 0 65538 = 0 ∧
      ¬ (tmff_scale_u16 65534 0 65538 ≤ tmff_scale_u16 65535 0 65538) := by
  decide

/-- C3: evaluation of `tmff_scale_s8` at the top input 0x7f on the 32-bit
bounds `minimum = 0 < maximum = 8421505`: the product `0xff * 8421505` leaves
the `int` range, the wrapped quotient is negative and the function returns
`minimum`, which is 8421505 units away from `maximum`. -/
theorem tmff_scale_s8_top_wide :
    isS32 0 ∧ isS32 8421505 ∧ (0 : Int) < 8421505 ∧
      tmff_scale_s8 127 0 8421505 = 0 ∧ 8421505 - tmff_scale_s8 127 0 8421505 > 1 := by
  decide

/-! ## Effect dispatcher -/

/-- C4: for a RUMBLE effect on a bound field with at least two values,
`tmff_play` stores in `value[0]`, `value[1]` the strong then the weak magnitude
on product 0xb320, and the weak then the strong magnitude on every other
product, each passed through `tmff_scale_u16` with the field's logical bounds;
the other values and the field's description are untouched and the status
is 0. -/
theorem tmff_play_rumble (product : Nat) (st : play_state) (effect : ff_effect)
    (hkind : effect.type = FF_RUMBLE) (hlen : 2 ≤ st.ff_field.value.length) :
    (tmff_play product st effect).1 = 0 ∧
    (tmff_play product st effect).2.ff_field =
      { st.ff_field with
        value :=
          (if product = THRUSTMASTER_DEVICE_ID_2_IN_1_DT then
            [tmff_scale_u16 effect.rumble_strong_magnitude
               st.ff_field.logical_minimum st.ff_field.logical_maximum,
             tmff_scale_u16 effect.rumble_weak_magnitude
               st.ff_field.logical_minimum st.ff_field.logical_maximum]
          else
            [tmff_scale_u16 effect.rumble_weak_magnitude
               st.ff_field.logical_minimum st.ff_field.logical_maximum,
             tmff_scale_u16 effect.rumble_strong_magnitude
               st.ff_field.logical_minimum st.ff_field.logical_maximum])
          ++ st.ff_field.value.drop 2 } := by
  obtain ⟨f, reqs⟩ := st
  obtain ⟨us, rc, lo, hi, vals⟩ := f
  have hrc : ¬ FF_RUMBLE = FF_CONSTANT := by decide
  match vals, hlen with
  | a :: b :: rest, _ =>
    by_cases hp : product = THRUSTMASTER_DEVICE_ID_2_IN_1_DT
    · simp [tmff_play, hkind, hrc, hid_hw_request, hid_field.set_value, hp]
    · simp [tmff_play, hkind, hrc, hid_hw_request, hid_field.set_value, hp]

/-- Witness of C4 at weak = 0x4000, strong = 0x8000 on the range [0, 255]:
product 0xb320 gets the values [127, 63] (strong first), product 0xb300 gets
[63, 127] (weak first). -/
theorem tmff_play_rumble_witness :
    sample_rumble.type = FF_RUMBLE ∧ 2 ≤ sample_state.ff_field.value.length ∧
      (tmff_play 0xb320 sample_state sample_rumble).1 = 0 ∧
      (tmff_play 0xb320 sample_state sample_rumble).2.ff_field.value = [127, 63] ∧
      (tmff_play 0xb300 sample_state sample_rumble).2.ff_field.value = [63, 127] := by
  have h := tmff_play_rumble 0xb320 sample_state sample_rumble rfl (by decide)
  have h' := tmff_play_rumble 0xb300 sample_state sample_rumble rfl (by decide)
  refine ⟨rfl, by decide, h.1, ?_, ?_⟩
  · rw [h.2]
    decide
  · rw [h'.2]
    decide

/-- C10: an effect whose kind is neither CONSTANT nor RUMBLE leaves the whole
state as it was (field values and request log) and returns 0; a CONSTANT or
RUMBLE effect returns 0 and appends exactly one request to the log, carrying
the values just written. -/
theorem tmff_play_dispatch (product : Nat) (st : play_state) (effect : ff_effect) :
    (effect.type ≠ FF_CONSTANT → effect.type ≠ FF_RUMBLE →
      tmff_play product st effect = (0, st)) ∧
    (effect.type = FF_CONSTANT ∨ effect.type = FF_RUMBLE →
      (tmff_play product st effect).1 = 0 ∧
      (tmff_play product st effect).2.requests =
        st.requests ++ [(tmff_play product st effect).2.ff_field.value]) := by
  constructor
  · intro hc hr
    simp [tmff_play, hc, hr]
  · intro h
    by_cases hc : effect.type = FF_CONSTANT
    · simp [tmff_play, hc, hid_hw_request]
    · have hr : effect.type = FF_RUMBLE := by tauto
      have hrc : ¬ FF_RUMBLE = FF_CONSTANT := by decide
      simp [tmff_play, hr, hrc, hid_hw_request]

/-- Witness of C10: a PERIODIC effect changes nothing, a RUMBLE effect sends
one request. -/
theorem tmff_play_dispatch_witness :
    tmff_play 0xb300 sample_state sample_periodic = (0, sample_state) ∧
      (tmff_play 0xb300 sample_state sample_rumble).2.requests = [[63, 127]] := by
  have h := tmff_play_dispatch 0xb300 sample_state sample_periodic
  have h2 := tmff_play_dispatch 0xb300 sample_state sample_rumble
  refine ⟨h.1 (by decide) (by decide), ?_⟩
  rw [(h2.2 (Or.inr rfl)).2]
  decide

/-! ## Field discovery -/

/-- Once the entry is bound to a position, the loop body leaves the state
untouched at every other position. -/
theorem tmff_init_field_of_bound (ff_bits : List Int) (ri fi : Nat) (field : hid_field)
    (st : init_state) (r0 f0 : Nat) (hr : st.tmff.report = some r0)
    (hf : st.tmff.ff_field = some (r0, f0)) (hne : r0 ≠ ri ∨ f0 ≠ fi) :
    tmff_init_field ff_bits ri fi field st = st := by
  have hnr : ¬ (r0 = ri ∧ f0 = fi) := by omega
  obtain ⟨us, rc, lo, hi, vals⟩ := field
  cases us with
  | nil => simp [tmff_init_field, hid_field.maxusage]
  | cons u rest =>
    simp only [tmff_init_field, hid_field.maxusage, hr, hf, List.length_cons]
    split_ifs with h1 h2 h3 h4 h5 h6 <;> first
      | rfl
      | (exfalso
         simp at h5 h6
         omega)

/-- On an unbound entry the loop body binds the field exactly when it
qualifies. -/
theorem tmff_init_field_of_unbound (ff_bits : List Int) (ri fi : Nat) (field : hid_field)
    (st : init_state) (hr : st.tmff.report = none) (hf : st.tmff.ff_field = none) :
    tmff_init_field ff_bits ri fi field st =
      if qualifies field = true then
        { tmff := { report := some ri, ff_field := some (ri, fi) },
          ffbit := set_ff_bits ff_bits st.ffbit }
      else st := by
  obtain ⟨us, rc, lo, hi, vals⟩ := field
  cases us with
  | nil => simp [tmff_init_field, qualifies, hid_field.maxusage]
  | cons u rest =>
    simp only [tmff_init_field, qualifies, hid_field.maxusage, hr, hf, List.head?_cons,
      List.length_cons]
    by_cases hu : u = 0xff00000a ∨ u = THRUSTMASTER_USAGE_FF
    · by_cases hc : rc < 2
      · have : ¬ 2 ≤ rc := by omega
        simp [hu, hc, this]
      · have h2 : 2 ≤ rc := by omega
        by_cases hm : hi = lo
        · simp [hu, hc, hm]
        · rcases hu with hu | hu <;> simp [hu, hc, h2, hm]
    · have h1 : ¬ u = 0xff00000a := fun h => hu (Or.inl h)
      have h2 : ¬ u = THRUSTMASTER_USAGE_FF := fun h => hu (Or.inr h)
      simp [h1, h2]

/-- The field loop of a report leaves a bound entry untouched when the bound
position lies in another report or before the index the loop starts from. -/
theorem tmff_init_fields_of_bound (ff_bits : List Int) (ri : Nat) (fields : List hid_field) :
    ∀ (fi : Nat) (st : init_state) (r0 f0 : Nat), st.tmff.report = some r0 →
      st.tmff.ff_field = some (r0, f0) → (r0 ≠ ri ∨ f0 < fi) →
      tmff_init_fields ff_bits ri fields fi st = st := by
  induction fields with
  | nil => intro fi st r0 f0 _ _ _; rfl
  | cons field rest ih =>
    intro fi st r0 f0 hr hf hne
    have hstep : tmff_init_field ff_bits ri fi field st = st :=
      tmff_init_field_of_bound ff_bits ri fi field st r0 f0 hr hf (by omega)
    simp only [tmff_init_fields, hstep]
    exact ih (fi + 1) st r0 f0 hr hf (by omega)

/-- The field loop of a report, run on an unbound entry, binds the first
qualifying field of the report and nothing else. -/
theorem tmff_init_fields_of_unbound (ff_bits : List Int) (ri : Nat) (fields : List hid_field) :
    ∀ (fi : Nat) (st : init_state), st.tmff.report = none → st.tmff.ff_field = none →
      tmff_init_fields ff_bits ri fields fi st =
        match List.findIdx? qualifies fields fi with
        | some k =>
          { tmff := { report := some ri, ff_field := some (ri, k) },
            ffbit := set_ff_bits ff_bits st.ffbit }
        | none => st := by
  induction fields with
  | nil => intro fi st _ _; rfl
  | cons field rest ih =>
    intro fi st hr hf
    have hstep := tmff_init_field_of_unbound ff_bits ri fi field st hr hf
    by_cases hq : qualifies field = true
    · simp only [tmff_init_fields, hstep, hq, if_true, List.findIdx?_cons]
      exact tmff_init_fields_of_bound ff_bits ri rest (fi + 1) _ ri fi rfl rfl (by omega)
    · simp only [tmff_init_fields, hstep, hq, List.findIdx?_cons]
      simpa using ih (fi + 1) st hr hf

/-- The report loop leaves a bound entry untouched when the bound position lies
in a report before the one the loop starts from. -/
theorem tmff_init_reports_of_bound (ff_bits : List Int) (reports : List hid_report) :
    ∀ (ri : Nat) (st : init_state) (r0 f0 : Nat), st.tmff.report = some r0 →
      st.tmff.ff_field = some (r0, f0) → r0 < ri →
      tmff_init_reports ff_bits reports ri st = st := by
  induction reports with
  | nil => intro ri st r0 f0 _ _ _; rfl
  | cons rep rest ih =>
    intro ri st r0 f0 hr hf hlt
    have hstep : tmff_init_fields ff_bits ri rep.field 0 st = st :=
      tmff_init_fields_of_bound ff_bits ri rep.field 0 st r0 f0 hr hf (by omega)
    simp only [tmff_init_reports, hstep]
    exact ih (ri + 1) st r0 f0 hr hf (by omega)

/-- The report loop, run on an unbound entry, binds the first qualifying field
in scan order and nothing else. -/
theorem tmff_init_reports_of_unbound (ff_bits : List Int) (reports : List hid_report) :
    ∀ (ri : Nat) (st : init_state), st.tmff.report = none → st.tmff.ff_field = none →
      tmff_init_reports ff_bits reports ri st =
        match first_qualifying_from reports ri with
        | some pos =>
          { tmff := { report := some pos.1, ff_field := some pos },
            ffbit := set_ff_bits ff_bits st.ffbit }
        | none => st := by
  induction reports with
  | nil => intro ri st _ _; rfl
  | cons rep rest ih =>
    intro ri st hr hf
    have hstep := tmff_init_fields_of_unbound ff_bits ri rep.field 0 st hr hf
    simp only [tmff_init_reports, hstep, first_qualifying_from]
    cases hfi : List.findIdx? qualifies rep.field with
    | some k =>
      simp only []
      exact tmff_init_reports_of_bound ff_bits rest (ri + 1) _ ri k rfl rfl (by omega)
    | none =>
      simp only []
      exact ih (ri + 1) st hr hf

/-- The entry produced by discovery is the first qualifying position. -/
theorem tmff_discover_tmff (reports : List hid_report) (ff_bits : List Int) (ffbit0 : List Nat) :
    (tmff_discover reports ff_bits ffbit0).tmff =
      { report := (first_qualifying reports).map Prod.fst,
        ff_field := first_qualifying reports } := by
  unfold tmff_discover first_qualifying
  rw [tmff_init_reports_of_unbound ff_bits reports 0 _ rfl rfl]
  cases first_qualifying_from reports 0 <;> rfl

/-- What `List.findIdx? qualifies` returns on the fields of one report. -/
theorem findIdx_qualifies_some (fields : List hid_field) (k : Nat)
    (h : List.findIdx? qualifies fields = some k) :
    ∃ f, fields[k]? = some f ∧ qualifies f = true ∧
      ∀ k', k' < k → ∀ f', fields[k']? = some f' → qualifies f' = false := by
  obtain ⟨hk, hq, hall⟩ := List.findIdx?_eq_some_iff_getElem.mp h
  refine ⟨fields[k], List.getElem?_eq_getElem hk, hq, ?_⟩
  intro k' hk' f' hf'
  have hlt : k' < fields.length := Nat.lt_trans hk' hk
  rw [List.getElem?_eq_getElem hlt] at hf'
  have := hall k' hk'
  cases hf'
  simpa using this

/-- No position is returned exactly when no field of any report qualifies. -/
theorem first_qualifying_from_none (reports : List hid_report) :
    ∀ ri : Nat, first_qualifying_from reports ri = none ↔
      ∀ rep ∈ reports, ∀ f ∈ rep.field, qualifies f = false := by
  induction reports with
  | nil => intro ri; simp [first_qualifying_from]
  | cons rep rest ih =>
    intro ri
    simp only [first_qualifying_from]
    cases hfi : List.findIdx? qualifies rep.field with
    | some k =>
      obtain ⟨f, hf, hq, _⟩ := findIdx_qualifies_some rep.field k hfi
      simp only [List.mem_cons, forall_eq_or_imp]
      constructor
      · intro h; cases h
      · intro h
        have hmem : f ∈ rep.field := List.getElem?_mem hf
        have := h.1 f hmem
        rw [hq] at this
        cases this
    | none =>
      simp only [List.mem_cons, forall_eq_or_imp]
      rw [ih (ri + 1)]
      constructor
      · intro h
        exact ⟨List.findIdx?_eq_none_iff.mp hfi, h⟩
      · intro h
        exact h.2

/-- The position returned is that of a qualifying field, and every position
before it in scan order holds a field that does not qualify. -/
theorem first_qualifying_from_some (reports : List hid_report) :
    ∀ (ri : Nat) (pos : Nat × Nat), first_qualifying_from reports ri = some pos →
      ∃ d rep f, pos.1 = ri + d ∧ reports[d]? = some rep ∧ rep.field[pos.2]? = some f ∧
        qualifies f = true ∧
        (∀ k', k' < pos.2 → ∀ f', rep.field[k']? = some f' → qualifies f' = false) ∧
        (∀ d', d' < d → ∀ rep', reports[d']? = some rep' →
          ∀ f' ∈ rep'.field, qualifies f' = false) := by
  induction reports with
  | nil => intro ri pos h; simp [first_qualifying_from] at h
  | cons rep rest ih =>
    intro ri pos h
    simp only [first_qualifying_from] at h
    cases hfi : List.findIdx? qualifies rep.field with
    | some k =>
      rw [hfi] at h
      simp only [Option.some.injEq] at h
      subst h
      obtain ⟨f, hf, hq, hbefore⟩ := findIdx_qualifies_some rep.field k hfi
      refine ⟨0, rep, f, rfl, by simp, hf, hq, hbefore, ?_⟩
      intro d' hd'
      omega
    | none =>
      rw [hfi] at h
      simp only [] at h
      obtain ⟨d, rep1, f, hpos, hrep, hf, hq, hbefore, hreps⟩ := ih (ri + 1) pos h
      refine ⟨d + 1, rep1, f, by omega, by simpa using hrep, hf, hq, hbefore, ?_⟩
      intro d' hd' rep' hrep' f' hf'
      cases d' with
      | zero =>
        simp only [List.getElem?_cons_zero, Option.some.injEq] at hrep'
        subst hrep'
        exact List.findIdx?_eq_none_iff.mp hfi f' hf'
      | succ d'' =>
        simp only [List.getElem?_cons_succ] at hrep'
        exact hreps d'' (by omega) rep' hrep' f' hf'

/-- Value of `tmff_init` on the discovery path. -/
theorem tmff_init_of_discovery (product : Nat) (reports : List hid_report)
    (ff_bits : List Int) (ffbit0 : List Nat) (env : init_env)
    (hprod : product ≠ 0xb65d) (halloc : env.kzalloc_ok = true) :
    tmff_init product reports ff_bits ffbit0 env =
      (if (tmff_discover reports ff_bits ffbit0).tmff.report.isNone then -ENODEV
       else if env.ff_create_memless ≠ 0 then env.ff_create_memless else 0,
       some (tmff_discover reports ff_bits ffbit0).tmff) := by
  unfold tmff_init
  rw [if_neg hprod]
  simp only [halloc, Bool.not_true]
  split_ifs <;> first | rfl | contradiction

/-- C5: on the discovery path of `tmff_init` (product other than 0xb65d, entry
allocated) the entry is bound to the first qualifying field in scan order:
the bound field qualifies, no field before it in its report and no field of
an earlier report qualifies, so later qualifying fields never replace it; and
the status is `-ENODEV` exactly when no field of any report qualifies
(`input_ff_create_memless` not returning `-ENODEV` itself). -/
theorem tmff_init_first_match (product : Nat) (reports : List hid_report)
    (ff_bits : List Int) (ffbit0 : List Nat) (env : init_env)
    (hprod : product ≠ 0xb65d) (halloc : env.kzalloc_ok = true)
    (hcreate : env.ff_create_memless ≠ -ENODEV) :
    (tmff_init product reports ff_bits ffbit0 env).2 =
        some { report := (first_qualifying reports).map Prod.fst,
               ff_field := first_qualifying reports } ∧
    (∀ ri fi, first_qualifying reports = some (ri, fi) →
      ∃ rep f, reports[ri]? = some rep ∧ rep.field[fi]? = some f ∧ qualifies f = true ∧
        (∀ fi', fi' < fi → ∀ f', rep.field[fi']? = some f' → qualifies f' = false) ∧
        (∀ ri', ri' < ri → ∀ rep', reports[ri']? = some rep' →
          ∀ f' ∈ rep'.field, qualifies f' = false)) ∧
    ((tmff_init product reports ff_bits ffbit0 env).1 = -ENODEV ↔
      ∀ rep ∈ reports, ∀ f ∈ rep.field, qualifies f = false) := by
  have hd := tmff_discover_tmff reports ff_bits ffbit0
  have hnone := first_qualifying_from_none reports 0
  have hi := tmff_init_of_discovery product reports ff_bits ffbit0 env hprod halloc
  refine ⟨?_, ?_, ?_⟩
  · rw [hi, hd]
  · intro ri fi h
    obtain ⟨d, rep, f, hpos, hrep, hf, hq, hbefore, hreps⟩ :=
      first_qualifying_from_some reports 0 (ri, fi) h
    simp only [Nat.zero_add] at hpos
    subst hpos
    exact ⟨rep, f, hrep, hf, hq, hbefore, hreps⟩
  · rw [← hnone, hi, hd]
    cases hfq : first_qualifying reports with
    | none =>
      have : first_qualifying_from reports 0 = none := hfq
      simp [this]
    | some pos =>
      have : first_qualifying_from reports 0 = some pos := hfq
      simp only [Option.map_some', Option.isNone_some, Bool.false_eq_true, if_false]
      by_cases h1 : env.ff_create_memless ≠ 0
      · simp [h1, hcreate, this]
      · simp [h1, ENODEV, this]

/-- Witness of C5: with a degenerate candidate first and valid candidates
after it on the same and on another report, the entry is bound to position
(0, 1); with the degenerate candidate alone the status is `-ENODEV`. -/
theorem tmff_init_first_match_witness :
    (tmff_init 0xb300 sample_reports [0x50, -1] [] sample_env).2 =
        some { report := some 0, ff_field := some (0, 1) } ∧
      (tmff_init 0xb300 [{ field := [degenerate_field] }] [0x50, -1] [] sample_env).1
        = -ENODEV := by
  have h1 := tmff_init_first_match 0xb300 sample_reports [0x50, -1] [] sample_env
    (by decide) rfl (by decide)
  have h2 := tmff_init_first_match 0xb300 [{ field := [degenerate_field] }] [0x50, -1] []
    sample_env (by decide) rfl (by decide)
  refine ⟨?_, ?_⟩
  · rw [h1.1]; decide
  · rw [h2.2.2]; decide

/-- A qualifying field has distinct logical bounds and at least two values. -/
theorem qualifies_bounds (f : hid_field) (h : qualifies f = true) :
    f.logical_maximum ≠ f.logical_minimum ∧ 2 ≤ f.report_count := by
  simp only [qualifies, Bool.and_eq_true, decide_eq_true_eq] at h
  exact ⟨h.2, h.1.2⟩

/-- C6, as stated, fails: a candidate field with `logical_minimum = 5` and
`logical_maximum = 0` is bound by `tmff_init`, which returns 0, although its
logical maximum is not above its logical minimum. -/
theorem tmff_init_binds_inverted_range :
    tmff_init 0xb300 [{ field := [inverted_field] }] [0x50, -1] [] sample_env =
        (0, some { report := some 0, ff_field := some (0, 0) }) ∧
      field_at [{ field := [inverted_field] }] (0, 0) = some inverted_field ∧
      ¬ (inverted_field.logical_maximum > inverted_field.logical_minimum) := by
  decide

/-- C6, amended: every field bound by the discovery of `tmff_init` has
`logical_maximum ≠ logical_minimum` and `report_count ≥ 2`, and a candidate
field with equal bounds or with fewer than two values is never bound. -/
theorem tmff_discover_binding_invariant (reports : List hid_report) (ff_bits : List Int)
    (ffbit0 : List Nat) :
    (∀ pos, (tmff_discover reports ff_bits ffbit0).tmff.ff_field = some pos →
      ∃ f, field_at reports pos = some f ∧
        f.logical_maximum ≠ f.logical_minimum ∧ 2 ≤ f.report_count) ∧
    (∀ pos f, field_at reports pos = some f →
      (f.logical_maximum = f.logical_minimum ∨ f.report_count < 2) →
      (tmff_discover reports ff_bits ffbit0).tmff.ff_field ≠ some pos) := by
  have hd := tmff_discover_tmff reports ff_bits ffbit0
  have key : ∀ pos, (tmff_discover reports ff_bits ffbit0).tmff.ff_field = some pos →
      ∃ f, field_at reports pos = some f ∧
        f.logical_maximum ≠ f.logical_minimum ∧ 2 ≤ f.report_count := by
    intro pos h
    rw [hd] at h
    obtain ⟨d, rep, f, hpos, hrep, hf, hq, _, _⟩ :=
      first_qualifying_from_some reports 0 pos h
    simp only [Nat.zero_add] at hpos
    refine ⟨f, ?_, qualifies_bounds f hq⟩
    simp only [field_at, hpos, hrep, hf]
  refine ⟨key, ?_⟩
  intro pos f hf hbad hbound
  obtain ⟨g, hg, hne, hcount⟩ := key pos hbound
  rw [hf] at hg
  cases hg
  omega

/-- Witness of amended C6 on `sample_reports`: the bound position (0, 1)
holds a field with distinct bounds and two values, and the degenerate
candidate at (0, 0) is not bound. -/
theorem tmff_discover_binding_invariant_witness :
    (∃ f, field_at sample_reports (0, 1) = some f ∧
        f.logical_maximum ≠ f.logical_minimum ∧ 2 ≤ f.report_count) ∧
      (tmff_discover sample_reports [0x50, -1] []).tmff.ff_field ≠ some (0, 0) := by
  have h := tmff_discover_binding_invariant sample_reports [0x50, -1] []
  exact ⟨h.1 (0, 1) (by decide), h.2 (0, 0) degenerate_field (by decide) (Or.inl (by decide))⟩

/-! ## Setup sequencer -/

/-- The payload handed to the transfer after `memcpy` of a whole packet is the
packet itself. -/
theorem memcpy_take (buf pkt : List Nat) : (memcpy buf pkt pkt.length).take pkt.length = pkt := by
  simp [memcpy]

/-- `first_failure` returns the least failing index of its window. -/
theorem first_failure_some (outcome : Nat → Int) (n : Nat) :
    ∀ i k, first_failure outcome i n = some k →
      i ≤ k ∧ k < i + n ∧ outcome k ≠ 0 ∧ ∀ j, i ≤ j → j < k → outcome j = 0 := by
  induction n with
  | zero => intro i k h; simp [first_failure] at h
  | succ n ih =>
    intro i k h
    simp only [first_failure] at h
    by_cases hi : outcome i ≠ 0
    · rw [if_pos hi] at h
      cases h
      exact ⟨le_refl _, by omega, hi, fun j h1 h2 => by omega⟩
    · rw [if_neg hi] at h
      obtain ⟨h1, h2, h3, h4⟩ := ih (i + 1) k h
      refine ⟨by omega, by omega, h3, ?_⟩
      intro j hj1 hj2
      by_cases hji : j = i
      · subst hji; simpa using hi
      · exact h4 j (by omega) hj2

/-- `first_failure` returns `none` only when every transfer of the window
succeeds. -/
theorem first_failure_none (outcome : Nat → Int) (n : Nat) :
    ∀ i, first_failure outcome i n = none → ∀ j, i ≤ j → j < i + n → outcome j = 0 := by
  induction n with
  | zero => intro i _ j h1 h2; omega
  | succ n ih =>
    intro i h j h1 h2
    simp only [first_failure] at h
    by_cases hi : outcome i ≠ 0
    · rw [if_pos hi] at h; cases h
    · rw [if_neg hi] at h
      by_cases hji : j = i
      · subst hji; simpa using hi
      · exact ih (i + 1) h j (by omega) (by omega)

/-- The packet loop over a table whose sizes are the packet lengths: what it
sends, the status it leaves and whether it left through the `goto`. -/
theorem setup_loop_run (outcome : Nat → Int) (arr : List (List Nat)) :
    ∀ (i : Nat) (st : seq_state),
      (setup_loop outcome (arr.map fun p => (p, p.length)) i st).2.sent =
          st.sent ++ arr.take
            (match first_failure outcome i arr.length with
             | some k => k + 1 - i
             | none => arr.length) ∧
      (setup_loop outcome (arr.map fun p => (p, p.length)) i st).2.ret =
          (match first_failure outcome i arr.length with
           | some k => outcome k
           | none => if arr = [] then st.ret else 0) ∧
      (setup_loop outcome (arr.map fun p => (p, p.length)) i st).1 =
          (first_failure outcome i arr.length).isSome := by
  induction arr with
  | nil => intro i st; simp [setup_loop, first_failure]
  | cons p rest ih =>
    intro i st
    simp only [List.map_cons, setup_loop, memcpy_take, List.length_cons, first_failure]
    by_cases hi : outcome i ≠ 0
    · simp [hi]
    · simp only [hi, if_false]
      have h0 : outcome i = 0 := by simpa using hi
      obtain ⟨hs, hr, hb⟩ := ih (i + 1)
        { send_buf := memcpy st.send_buf p p.length, sent := st.sent ++ [p], ret := outcome i }
      refine ⟨?_, ?_, hb⟩
      · rw [hs]
        cases hff : first_failure outcome (i + 1) rest.length with
        | none => simp
        | some k =>
          have hk := (first_failure_some outcome rest.length (i + 1) k hff).1
          have hk2 : k + 1 - i = (k + 1 - (i + 1)) + 1 := by omega
          simp only [hk2, List.take_succ_cons]
          simp
      · rw [hr]
        cases hff : first_failure outcome (i + 1) rest.length with
        | none => simp [h0]
        | some k => simp

/-- The size tables of both drivers list the lengths of the packets. -/
theorem setup_tables_sizes :
    setup_arr.zip setup_arr_sizes = setup_arr.map (fun p => (p, p.length)) ∧
      tmx_setup_arr.zip tmx_setup_arr_sizes = tmx_setup_arr.map (fun p => (p, p.length)) := by
  constructor <;> rfl

/-- The packet loop over a non-empty table is a fail-fast run. -/
theorem setup_loop_fail_fast (outcome : Nat → Int) (arr : List (List Nat)) (st : seq_state)
    (hst : st.sent = []) (hne : arr ≠ []) :
    fail_fast_run arr outcome
      (setup_loop outcome (arr.map fun p => (p, p.length)) 0 st).2.sent
      (setup_loop outcome (arr.map fun p => (p, p.length)) 0 st).2.ret := by
  obtain ⟨hs, hr, _⟩ := setup_loop_run outcome arr 0 st
  unfold fail_fast_run
  rw [hs, hr, hst]
  cases first_failure outcome 0 arr.length with
  | none => simp [hne]
  | some k => simp

/-- C7: the setup sequencer is fail-fast and order-preserving. For every
assignment `outcome` of transfer statuses, `first_failure` is the index of the
first transfer with a non-zero status; the packet loop over any non-empty
table, `tmx_interrupts` (buffer allocated) and the packet loop of
`tmff_clear_init` send exactly the packets up to and including that index, in
table order, and return that transfer's status, the handshake not being
started; when no transfer fails the whole table is sent in order. -/
theorem setup_sequencer_fail_fast (outcome : Nat → Int) (buf0 : List Nat) (ret0 : Int)
    (env : urb_env) (arr : List (List Nat))
    (hfit : ∀ p ∈ arr, p.length ≤ buf0.length) (hbuf : buf0.length = 256) (hne : arr ≠ []) :
    (∀ n k, first_failure outcome 0 n = some k →
      k < n ∧ outcome k ≠ 0 ∧ ∀ j, j < k → outcome j = 0) ∧
    (∀ n, first_failure outcome 0 n = none → ∀ j, j < n → outcome j = 0) ∧
    fail_fast_run arr outcome
      (setup_loop outcome (arr.map fun p => (p, p.length)) 0
        { send_buf := buf0, sent := [], ret := ret0 }).2.sent
      (setup_loop outcome (arr.map fun p => (p, p.length)) 0
        { send_buf := buf0, sent := [], ret := ret0 }).2.ret ∧
    fail_fast_run tmx_setup_arr outcome
      (tmx_interrupts true outcome buf0 ret0).2 (tmx_interrupts true outcome buf0 ret0).1 ∧
    (match first_failure outcome 0 setup_arr.length with
     | some k =>
       (tmff_clear_init outcome buf0 ret0 env).sent = setup_arr.take (k + 1) ∧
       (tmff_clear_init outcome buf0 ret0 env).err = outcome k ∧
       (tmff_clear_init outcome buf0 ret0 env).urb_calls = []
     | none =>
       (tmff_clear_init outcome buf0 ret0 env).sent = setup_arr ∧
       (tmff_clear_init outcome buf0 ret0 env).err = (usb_start_wait_urb env).retval) := by
  have _ := hfit
  have _ := hbuf
  refine ⟨?_, ?_, ?_, ?_, ?_⟩
  · intro n k h
    obtain ⟨_, h2, h3, h4⟩ := first_failure_some outcome n 0 k h
    exact ⟨by omega, h3, fun j hj => h4 j (Nat.zero_le j) hj⟩
  · intro n h j hj
    exact first_failure_none outcome n 0 h j (Nat.zero_le j) (by omega)
  · exact setup_loop_fail_fast outcome arr _ rfl hne
  · simp only [tmx_interrupts, Bool.not_true, Bool.false_eq_true, if_false, setup_tables_sizes.2]
    exact setup_loop_fail_fast outcome tmx_setup_arr _ rfl (by decide)
  · obtain ⟨hs, hr, hb⟩ := setup_loop_run outcome setup_arr 0
      { send_buf := buf0, sent := [], ret := ret0 }
    simp only [tmff_clear_init, setup_tables_sizes.1]
    rw [hb]
    cases hff : first_failure outcome 0 setup_arr.length with
    | none =>
      rw [hff] at hs
      simp only [Option.isSome_none, Bool.false_eq_true, if_false]
      exact ⟨by simpa using hs, trivial⟩
    | some k =>
      rw [hff] at hs hr
      simp only [Option.isSome_some, if_true]
      exact ⟨by simpa using hs, hr, trivial⟩

/-- Witness of C7: with the packets [P0, P1, P2] and the transfer of P1
failing with status -5, only P0 and P1 are sent and the status is -5. -/
theorem setup_sequencer_fail_fast_witness :
    (setup_loop sample_outcome (sample_packets.map fun p => (p, p.length)) 0
        { send_buf := List.replicate 256 0, sent := [], ret := 0 }).2.sent = [[0xa0], [0xa1]] ∧
    (setup_loop sample_outcome (sample_packets.map fun p => (p, p.length)) 0
        { send_buf := List.replicate 256 0, sent := [], ret := 0 }).2.ret = -5 := by
  have hfit : ∀ p ∈ sample_packets, p.length ≤ (List.replicate 256 0).length := by
    intro p hp
    rw [List.length_replicate]
    simp only [sample_packets, List.mem_cons, List.mem_singleton, List.not_mem_nil,
      or_false] at hp
    rcases hp with rfl | rfl | rfl <;> decide
  have h := (setup_sequencer_fail_fast sample_outcome (List.replicate 256 0) 0 sample_env.urb
    sample_packets hfit (List.length_replicate 256 0) (by decide)).2.2.1
  have hk : first_failure sample_outcome 0 sample_packets.length = some 1 := by decide
  unfold fail_fast_run at h
  rw [hk] at h
  exact ⟨h.1.trans (by decide), h.2.trans (by decide)⟩

/-! ## Transport adapter -/

/-- The completion handler `tmff_ctrl` never changes the context: it neither
stores a status nor signals the completion. -/
theorem tmff_ctrl_keeps_context (urb_status : Int) (ctx : api_context) :
    (tmff_ctrl urb_status ctx).1 = ctx := rfl

/-- Whenever the urb was submitted and the wait elapses without a completion
signal, `usb_start_wait_urb` kills the urb once, then frees it once, and
returns `-ETIMEDOUT` when the context status is `-ENOENT`, and the context
status itself otherwise. -/
theorem usb_start_wait_urb_timeout (env : urb_env)
    (hsub : env.submit_ret = 0) (hwait : env.ctx.done = false) :
    (usb_start_wait_urb env).calls =
        [urb_call.usb_submit_urb, urb_call.usb_kill_urb, urb_call.usb_free_urb] ∧
    (usb_start_wait_urb env).retval =
        (if env.ctx.status = -ENOENT then -ETIMEDOUT else env.ctx.status) ∧
    ((usb_start_wait_urb env).retval = -ETIMEDOUT ↔
        (env.ctx.status = -ENOENT ∨ env.ctx.status = -ETIMEDOUT)) := by
  have h : usb_start_wait_urb env =
      { retval := if env.ctx.status = -ENOENT then -ETIMEDOUT else env.ctx.status,
        actual_length := env.actual_length,
        calls := [urb_call.usb_submit_urb, urb_call.usb_kill_urb, urb_call.usb_free_urb] } := by
    simp [usb_start_wait_urb, hsub, hwait]
  rw [h]
  refine ⟨rfl, rfl, ?_⟩
  simp only [ENOENT, ETIMEDOUT]
  split_ifs with hs
  · simp [hs]
  · constructor
    · intro h1; exact Or.inr h1
    · intro h1; rcases h1 with h1 | h1
      · exact absurd h1 hs
      · exact h1

/-- With `tmff_ctrl` as completion handler the context is never written:
whatever completions the urb goes through, `done` stays false and `status`
keeps the indeterminate content of its stack slot. -/
theorem ctx_after_wait_eq (stack_status : Int) (completions : List Int) :
    ctx_after_wait stack_status completions = { done := false, status := stack_status } := by
  unfold ctx_after_wait
  induction completions with
  | nil => rfl
  | cons c rest ih =>
    rw [List.foldl_cons]
    exact ih

/-- On the handshake urb the wait always elapses without completion signal:
the urb is killed and freed, and the value returned is decided by the
indeterminate content of `ctx.status` alone, not by the device. -/
theorem usb_start_wait_urb_handshake (stack_status : Int) (completions : List Int)
    (actual_length : Int) :
    (handshake_urb_env stack_status completions actual_length).ctx.done = false ∧
    (usb_start_wait_urb (handshake_urb_env stack_status completions actual_length)).calls =
        [urb_call.usb_submit_urb, urb_call.usb_kill_urb, urb_call.usb_free_urb] ∧
    (usb_start_wait_urb (handshake_urb_env stack_status completions actual_length)).retval =
        (if stack_status = -ENOENT then -ETIMEDOUT else stack_status) := by
  have hc : (handshake_urb_env stack_status completions actual_length).ctx =
      { done := false, status := stack_status } := ctx_after_wait_eq stack_status completions
  have h := usb_start_wait_urb_timeout
    (handshake_urb_env stack_status completions actual_length) rfl (by rw [hc])
  rw [hc] at h
  exact ⟨by rw [hc], h.1, h.2.1⟩

/-- C8: evaluation of `usb_start_wait_urb` on the handshake urb (completion
handler `tmff_ctrl`, submission successful) when the wait elapses without
completion signal and the urb, killed, is given back with `-ENOENT` (-2). With
the stack slot of `ctx.status` holding 1234 the function cancels the urb and
returns 1234; with the slot holding 0 it returns 0, the success status. In
neither case does it return `-ETIMEDOUT`: the status of the given back urb
never reaches `ctx.status`. -/
theorem usb_start_wait_urb_timeout_not_reported :
    (handshake_urb_env 1234 [-2] 0).submit_ret = 0 ∧
      (handshake_urb_env 1234 [-2] 0).ctx.done = false ∧
      (usb_start_wait_urb (handshake_urb_env 1234 [-2] 0)).calls =
        [urb_call.usb_submit_urb, urb_call.usb_kill_urb, urb_call.usb_free_urb] ∧
      (usb_start_wait_urb (handshake_urb_env 1234 [-2] 0)).retval = 1234 ∧
      (usb_start_wait_urb (handshake_urb_env 1234 [-2] 0)).retval ≠ -ETIMEDOUT ∧
      (usb_start_wait_urb (handshake_urb_env 0 [-2] 0)).retval = 0 ∧
      (usb_start_wait_urb (handshake_urb_env 0 [-2] 0)).retval ≠ -ETIMEDOUT := by
  decide

/-! ## Lifecycle: handshake status -/

/-- When every transfer of the window succeeds, `first_failure` finds none. -/
theorem first_failure_of_all_ok (outcome : Nat → Int) (n : Nat) :
    ∀ i, (∀ j, i ≤ j → j < i + n → outcome j = 0) → first_failure outcome i n = none := by
  induction n with
  | zero => intro i _; rfl
  | succ n ih =>
    intro i h
    have h0 : outcome i = 0 := h i (le_refl _) (by omega)
    simp only [first_failure, h0, ne_eq, not_true_eq_false, if_false]
    exact ih (i + 1) (fun j h1 h2 => h j (by omega) (by omega))

/-- C9, as stated, fails: on product 0xb65d, with every setup packet sent
successfully and the handshake submission failing with -12, `tmff_init`
returns -12, not 0. -/
theorem tmff_init_returns_handshake_failure :
    (∀ i, i < setup_arr.length → handshake_fail_env.outcome i = 0) ∧
      (tmff_clear_init handshake_fail_env.outcome handshake_fail_env.buf0
        handshake_fail_env.err0 handshake_fail_env.urb).sent = setup_arr ∧
      (usb_start_wait_urb handshake_fail_env.urb).retval = -12 ∧
      (tmff_init 0xb65d [] [0x52, -1] [] handshake_fail_env).1 = -12 ∧
      (tmff_init 0xb65d [] [0x52, -1] [] handshake_fail_env).1 ≠ 0 := by
  refine ⟨fun i _ => rfl, ?_, ?_, ?_, ?_⟩ <;> decide

/-- C9, amended: on product 0xb65d, whenever every setup packet is sent
successfully, all packets of `setup_arr` are sent and `tmff_init` returns the
status of the handshake's control transfer (`usb_start_wait_urb`), so it
returns 0 exactly when that status is 0; `tm_probe` discards the value of
`tmff_init` and returns 0 once `hid_parse` and `hid_hw_start` succeeded. -/
theorem tmff_init_handshake_status (reports : List hid_report) (ff_bits : List Int)
    (ffbit0 : List Nat) (env : init_env)
    (hsetup : ∀ i, i < setup_arr.length → env.outcome i = 0) :
    (tmff_clear_init env.outcome env.buf0 env.err0 env.urb).sent = setup_arr ∧
    (tmff_init 0xb65d reports ff_bits ffbit0 env).1 = (usb_start_wait_urb env.urb).retval ∧
    ((tmff_init 0xb65d reports ff_bits ffbit0 env).1 = 0 ↔
      (usb_start_wait_urb env.urb).retval = 0) ∧
    tm_probe 0 0 0xb65d reports ff_bits ffbit0 env = 0 := by
  have hff : first_failure env.outcome 0 setup_arr.length = none :=
    first_failure_of_all_ok env.outcome setup_arr.length 0
      (fun j _ h2 => hsetup j (by omega))
  obtain ⟨hs, _, hb⟩ := setup_loop_run env.outcome setup_arr 0
    { send_buf := env.buf0, sent := [], ret := env.err0 }
  rw [hff] at hs hb
  have hsent : (tmff_clear_init env.outcome env.buf0 env.err0 env.urb).sent = setup_arr := by
    simp only [tmff_clear_init, setup_tables_sizes.1]
    rw [hb]
    simpa using hs
  have herr : (tmff_clear_init env.outcome env.buf0 env.err0 env.urb).err =
      (usb_start_wait_urb env.urb).retval := by
    simp only [tmff_clear_init, setup_tables_sizes.1]
    rw [hb]
    simp
  have hinit : (tmff_init 0xb65d reports ff_bits ffbit0 env).1 =
      (usb_start_wait_urb env.urb).retval := by
    simp only [tmff_init, if_true]
    exact herr
  refine ⟨hsent, hinit, by rw [hinit], ?_⟩
  simp [tm_probe]

/-- Witness of amended C9: in `handshake_fail_env` every setup transfer
succeeds and `tmff_init` returns the handshake status -12 while `tm_probe`
returns 0. -/
theorem tmff_init_handshake_status_witness :
    (tmff_init 0xb65d [] [0x52, -1] [] handshake_fail_env).1 = -12 ∧
      tm_probe 0 0 0xb65d [] [0x52, -1] [] handshake_fail_env = 0 := by
  have h := tmff_init_handshake_status [] [0x52, -1] [] handshake_fail_env (fun _ _ => rfl)
  exact ⟨h.2.1.trans (by decide), h.2.2.2⟩

/-! ## Range setter -/

/-- C11: for every 16-bit value `tmx_set_range` passes on to the underlying
range setter exactly the value clamped to [140, 900]: 140 for values below
140, 900 for values above 900, the value itself otherwise; the setter is
called in every case and its status is the status returned. -/
theorem tmx_set_range_clamps (t300rs_set_range : Nat → Int) (value : Nat)
    (h16 : value < 65536) :
    (tmx_set_range t300rs_set_range value).forwarded = max 140 (min value 900) ∧
    (value < 140 → (tmx_set_range t300rs_set_range value).forwarded = 140) ∧
    (900 < value → (tmx_set_range t300rs_set_range value).forwarded = 900) ∧
    (140 ≤ value → value ≤ 900 → (tmx_set_range t300rs_set_range value).forwarded = value) ∧
    (tmx_set_range t300rs_set_range value).ret =
      t300rs_set_range (tmx_set_range t300rs_set_range value).forwarded := by
  have hv : value % 65536 = value := Nat.mod_eq_of_lt h16
  have key : (tmx_set_range t300rs_set_range value).forwarded = max 140 (min value 900) := by
    simp only [tmx_set_range, hv]
    split_ifs <;> omega
  refine ⟨key, ?_, ?_, ?_, rfl⟩
  · intro h; rw [key]; omega
  · intro h; rw [key]; omega
  · intro h1 h2; rw [key]; omega

/-- Witness of C11: the value 50 is passed on as 140 and the value 1200 as
900. -/
theorem tmx_set_range_clamps_witness :
    (50 : Nat) < 65536 ∧ (1200 : Nat) < 65536 ∧
      (tmx_set_range sample_range_setter 50).forwarded = 140 ∧
      (tmx_set_range sample_range_setter 1200).forwarded = 900 := by
  have h1 := tmx_set_range_clamps sample_range_setter 50 (by decide)
  have h2 := tmx_set_range_clamps sample_range_setter 1200 (by decide)
  exact ⟨by decide, by decide, h1.2.1 (by decide), h2.2.2.1 (by decide)⟩

end TMFF
